import Mathlib

/-!
Verification development for the DNS resolver in `src/resolver.py`.

The embedding is byte-level: Python `bytes` values and (ASCII) `str` values
are both modelled as `List Nat` of byte / code-point values (the code only
ever builds names from ASCII data, where `str.encode` and `bytes.decode`
are the identity on the underlying values; the dot separator is byte 46).
Functions that can raise a Python exception return an `Option` or a `PRes`;
the pointer-chasing decoder and the recursive resolver, which can diverge,
take an explicit fuel argument, and `PRes.noFuel` / `FOut.noFuel` mark a
computation that did not finish within the given fuel (for any fuel, in the
divergence lemmas below).
-/

set_option maxRecDepth 40000

namespace Resolver

/-- Result of a Python computation that can raise (`exn`) or, in this
fuel-instrumented model, fail to finish within its fuel (`noFuel`). -/
inductive PRes (α : Type) : Type
  | ok : α → PRes α
  | exn : PRes α
  | noFuel : PRes α
deriving DecidableEq, Repr

/-- Python `s.split('.')` on the code-point list model: always returns at
least one (possibly empty) piece. -/
def splitOnDot : List Nat → List (List Nat)
  | [] => [[]]
  | c :: rest =>
    match splitOnDot rest with
    | [] => [[]]
    | l :: ls => if c = 46 then [] :: l :: ls else (c :: l) :: ls

/-- The per-label encoding loop of `stringToNetwork`: each label becomes a
one-byte length prefix followed by its bytes.  `pack("B", n)` raises
`struct.error` when `n > 255`, modelled as `none`. -/
def encodeLabels : List (List Nat) → Option (List Nat)
  | [] => some []
  | l :: ls =>
    if l.length ≤ 255 then (encodeLabels ls).map (fun r => l.length :: l ++ r)
    else none

/-- `stringToNetwork` (resolver.py:24): split on the dot, length-prefix each
label, append a terminating zero byte.  No 63-byte or 255-byte validation is
performed; only `pack("B", len(item))` can fail, for labels over 255 bytes. -/
def stringToNetwork (s : List Nat) : Option (List Nat) :=
  (encodeLabels (splitOnDot s)).map (fun enc => enc ++ [0])

/-- `networkToString` (resolver.py:50): walk length-prefixed labels starting
at `position`, accumulating `label ++ "."` into `acc` (`toReturn`); a zero
byte ends the name (the trailing dot is stripped with `[:-1]`); a byte with
bits 7 and 6 both set is a compression pointer whose target the code computes
as `(length AND 63) + (b2 AND 255)` (the low bits are summed, not shifted),
after which the dereferenced name is appended and `position + 2` returned.
Reads past the end of the message raise `struct.error` (`.exn`).  `fuel`
bounds the number of loop iterations and pointer hops; the source has no
such bound, so genuine divergence shows up as `.noFuel` at every fuel. -/
def networkToString (response : List Nat) : Nat → Nat → List Nat → PRes (List Nat × Nat)
  | 0, _, _ => .noFuel
  | fuel + 1, position, acc =>
    match response[position]? with
    | none => .exn
    | some length =>
      if length = 0 then
        .ok (acc.dropLast, position + 1)
      else if length &&& (1 <<< 7) ≠ 0 ∧ length &&& (1 <<< 6) ≠ 0 then
        match response[position + 1]? with
        | none => .exn
        | some b2 =>
          match networkToString response fuel ((length &&& 63) + (b2 &&& 255)) [] with
          | .ok (d, _) => .ok (acc ++ d, position + 2)
          | .exn => .exn
          | .noFuel => .noFuel
      else
        if position + 1 + length ≤ response.length then
          networkToString response fuel (position + 1 + length)
            (acc ++ (response.drop (position + 1)).take length ++ [46])
        else .exn

/-- The hex digit characters produced by Python `hex` (lowercase). -/
def hexChar (d : Nat) : Nat := if d < 10 then 48 + d else 87 + d

/-- Digit loop of Python `hex`, most significant digit first; the fuel is
always taken as `n + 1`, which is more than enough. -/
def hexDigitsGo : Nat → Nat → List Nat → List Nat
  | 0, _, acc => acc
  | fuel + 1, n, acc =>
    if n < 16 then hexChar n :: acc
    else hexDigitsGo fuel (n / 16) (hexChar (n % 16) :: acc)

/-- Python `hex(n)` as a list of character codes: `0x` followed by the hex
digits, e.g. `hex(0x8480) = "0x8480"` and `hex(0) = "0x0"`. -/
def pyHex (n : Nat) : List Nat := 48 :: 120 :: hexDigitsGo (n + 1) n []

/-- `parseResponse` (resolver.py:245): unpack the first 12 bytes as six
16-bit fields (raising if the response is shorter), then read characters 3
and 5 of `hex(flags)` — the second and fourth hex digits when `flags` has
four of them, an `IndexError` (modelled `none`) otherwise — and the
authority count.  Returns `(auth, soa, ns_count)`. -/
def parseResponse (response : List Nat) : Option (Nat × Nat × Nat) :=
  if response.length < 12 then none
  else
    let flags := response.getD 2 0 * 256 + response.getD 3 0
    match (pyHex flags)[3]?, (pyHex flags)[5]? with
    | some auth, some soa =>
      some (auth, soa, response.getD 8 0 * 256 + response.getD 9 0)
    | _, _ => none

/-- `findType` (resolver.py:159): skip the question (name at 12, plus 4
bytes of qtype/qclass), decode the first record name, then take the last
byte of the two-byte slice at its end — the low byte of the record type.
An empty slice raises `IndexError`. -/
def findType (data : List Nat) (fuel : Nat) : PRes Nat :=
  match networkToString data fuel 12 [] with
  | .ok (_, e1) =>
    match networkToString data fuel (e1 + 4) [] with
    | .ok (_, e2) =>
      match ((data.drop e2).take 2).getLast? with
      | some t => .ok t
      | none => .exn
    | .exn => .exn
    | .noFuel => .noFuel
  | .exn => .exn
  | .noFuel => .noFuel

/-- `findCname` (resolver.py:175): decode the name 10 bytes past the end of
the first record name (the record data field). -/
def findCname (data : List Nat) (fuel : Nat) : PRes (List Nat) :=
  match networkToString data fuel 12 [] with
  | .ok (_, e1) =>
    match networkToString data fuel (e1 + 4) [] with
    | .ok (_, e2) =>
      match networkToString data fuel (e2 + 10) [] with
      | .ok (cname, _) => .ok cname
      | .exn => .exn
      | .noFuel => .noFuel
    | .exn => .exn
    | .noFuel => .noFuel
  | .exn => .exn
  | .noFuel => .noFuel

/-- `findMail` (resolver.py:190): like `findCname` but 12 bytes past the end
of the record name (10 fixed bytes plus the 2-byte MX preference). -/
def findMail (data : List Nat) (fuel : Nat) : PRes (List Nat) :=
  match networkToString data fuel 12 [] with
  | .ok (_, e1) =>
    match networkToString data fuel (e1 + 4) [] with
    | .ok (_, e2) =>
      match networkToString data fuel (e2 + 12) [] with
      | .ok (mail, _) => .ok mail
      | .exn => .exn
      | .noFuel => .noFuel
    | .exn => .exn
    | .noFuel => .noFuel
  | .exn => .exn
  | .noFuel => .noFuel

/-- Decimal digit characters of `n`, as produced by `inet_ntoa`. -/
def decDigitsGo : Nat → Nat → List Nat → List Nat
  | 0, _, acc => acc
  | fuel + 1, n, acc =>
    if n < 10 then (48 + n) :: acc
    else decDigitsGo fuel (n / 10) ((48 + n % 10) :: acc)

/-- Decimal rendering of one byte. -/
def decDigits (n : Nat) : List Nat := decDigitsGo (n + 1) n []

/-- `socket.inet_ntoa` on four bytes: dotted-decimal character codes. -/
def inet_ntoa4 (a b c d : Nat) : List Nat :=
  decDigits a ++ 46 :: decDigits b ++ 46 :: decDigits c ++ 46 :: decDigits d

/-- `findAnswer` (resolver.py:206): skip the question, decode the first
record name, and render bytes `[start+10, start+14)` with `inet_ntoa`
(which raises unless given exactly 4 bytes).  The `ns_count` argument is
unused, as in the source. -/
def findAnswer (data : List Nat) (ns_count : Nat) (fuel : Nat) : PRes (List Nat) :=
  match networkToString data fuel 12 [] with
  | .ok (_, e1) =>
    match networkToString data fuel (e1 + 4) [] with
    | .ok (_, e2) =>
      match (data.drop (e2 + 10)).take 4 with
      | [a, b, c, d] => .ok (inet_ntoa4 a b c d)
      | _ => .exn
    | .exn => .exn
    | .noFuel => .noFuel
  | .exn => .exn
  | .noFuel => .noFuel

/-- The loop of `createNS` (resolver.py:235): for each of `ns_count`
iterations, decode the record name ending at `e1`, append the name decoded
at `e1 + 10` (the record data field, past type/class/ttl/rdlength), and
continue from the end of that data name. -/
def createNSGo (data : List Nat) (fuel : Nat) : Nat → Nat → PRes (List (List Nat))
  | 0, _ => .ok []
  | i + 1, start =>
    match networkToString data fuel start [] with
    | .ok (_, e1) =>
      match networkToString data fuel (e1 + 10) [] with
      | .ok (name, e2) =>
        match createNSGo data fuel i e2 with
        | .ok rest => .ok (name :: rest)
        | .exn => .exn
        | .noFuel => .noFuel
      | .exn => .exn
      | .noFuel => .noFuel
    | .exn => .exn
    | .noFuel => .noFuel

/-- `createNS` (resolver.py:222): start just past the question section and
collect `ns_count` record-data names. -/
def createNS (data : List Nat) (ns_count : Nat) (fuel : Nat) : PRes (List (List Nat)) :=
  match networkToString data fuel 12 [] with
  | .ok (_, p) => createNSGo data fuel ns_count (p + 4)
  | .exn => .exn
  | .noFuel => .noFuel

/-- `pack("!H", n)` for `n < 65536`: big-endian byte pair. -/
def packH (n : Nat) : List Nat := [n / 256, n % 256]

/-- `constructQuery` (resolver.py:94): 12-byte header `(ID, flags = 0,
1 question, 0 answers, 0 authority, 0 additional)`, the encoded name, then
`qtype` (15 for MX, 1 for A) and `qclass` 1.  `pack("!H", ID)` raises for
IDs outside 16 bits, and the name encoding can raise, modelled as `none`. -/
def constructQuery (ID : Nat) (hostname : List Nat) (mx : Bool) : Option (List Nat) :=
  if ID < 65536 then
    (stringToNetwork hostname).map (fun qname =>
      packH ID ++ packH 0 ++ packH 1 ++ packH 0 ++ packH 0 ++ packH 0 ++
        qname ++ packH (if mx then 15 else 1) ++ packH 1)
  else none

/-- The literal Python string `Invalid TLD` (resolver.py:286). -/
def strTLD : List Nat := [73, 110, 118, 97, 108, 105, 100, 32, 84, 76, 68]

/-- The literal Python string `Invalid domain` (resolver.py:288). -/
def strDomain : List Nat :=
  [73, 110, 118, 97, 108, 105, 100, 32, 100, 111, 109, 97, 105, 110]

/-- The literal Python string `Subdomain could not be resolved, SOA`
(resolver.py:290). -/
def strSub : List Nat :=
  [83, 117, 98, 100, 111, 109, 97, 105, 110, 32, 99, 111, 117, 108, 100, 32,
   110, 111, 116, 32, 98, 101, 32, 114, 101, 115, 111, 108, 118, 101, 100,
   44, 32, 83, 79, 65]

/-- Result of one `find` call: a returned Python string (error message or
IP text), the implicit `None` returned when the name-server list is empty,
a raised exception, or exhaustion of the hop fuel (the source recurses with
no bound). -/
inductive FOut : Type
  | str : List Nat → FOut
  | nil : FOut
  | exn : FOut
  | noFuel : FOut
deriving DecidableEq, Repr

/-- `find` (resolver.py:264).  `env server hostname mx` stands for the bytes
`sendToServer` hands back for that query (the transport is a collaborator;
timeouts are outside the claims, so `env` is total).  `hopFuel` bounds the
recursion depth (absent in the source); `decFuel` is handed unchanged to the
name decoder.  Branches, in source order: name error when the `soa` hex
digit is the character `3` (code 51) or the probed type is 6, with the
result string chosen by `count`; CNAME (type 5) restarts from `root` at
`count + 1`; an `auth` hex digit equal to the character `4` (code 52) is
the authoritative branch — MX target re-resolved from `root` when `mx`,
else the A record is rendered; otherwise the first name of `createNS` is
queried next, and an empty list falls through to Python `None`.  The
recursive call is abstracted as `rec`; `find` below ties the knot with a
structural hop-fuel argument. -/
def findBody (env : List Nat → List Nat → Bool → List Nat)
    (rec : Nat → List Nat → List Nat → Bool → List Nat → Nat → FOut)
    (decFuel : Nat) (server hostname : List Nat) (mx : Bool) (root : List Nat)
    (count : Nat) : FOut :=
  let response := env server hostname mx
  match parseResponse response with
  | none => .exn
  | some (auth, soa, ns_count) =>
    match findType response decFuel with
    | .exn => .exn
    | .noFuel => .noFuel
    | .ok t =>
      if soa = 51 ∨ t = 6 then
        if count = 0 then .str strTLD
        else if count = 1 then .str strDomain
        else .str strSub
      else if t = 5 then
        match findCname response decFuel with
        | .ok cname => rec decFuel root cname mx root (count + 1)
        | .exn => .exn
        | .noFuel => .noFuel
      else if auth = 52 then
        if mx then
          match findMail response decFuel with
          | .ok mail => rec decFuel root mail false root (count + 1)
          | .exn => .exn
          | .noFuel => .noFuel
        else
          match findAnswer response 1 decFuel with
          | .ok ip => .str ip
          | .exn => .exn
          | .noFuel => .noFuel
      else
        match createNS response ns_count decFuel with
        | .ok [] => .nil
        | .ok (nsname :: _) => rec decFuel nsname hostname mx root (count + 1)
        | .exn => .exn
        | .noFuel => .noFuel

/-- The hop loop of `find`: each recursion level of the source consumes one
unit of `hopFuel`; the source itself recurses without any bound. -/
def find (env : List Nat → List Nat → Bool → List Nat) :
    Nat → Nat → List Nat → List Nat → Bool → List Nat → Nat → FOut
  | 0, _, _, _, _, _, _ => .noFuel
  | hopFuel + 1, decFuel, server, hostname, mx, root, count =>
    findBody env (find env hopFuel) decFuel server hostname mx root count

/-- Unfolding `find` one hop: the body applied to the one-smaller fuel. -/
lemma find_succ (env : List Nat → List Nat → Bool → List Nat)
    (hopFuel decFuel : Nat) (server hostname : List Nat) (mx : Bool)
    (root : List Nat) (count : Nat) :
    find env (hopFuel + 1) decFuel server hostname mx root count
      = findBody env (find env hopFuel) decFuel server hostname mx root count := rfl

/-- The name-error branch of the body: when the `soa` digit is the character
`3` or the probed type is 6, the result is one of the three literal error
strings, chosen by `count`, with no recursive call. -/
lemma findBody_nameError (env : List Nat → List Nat → Bool → List Nat)
    (rec : Nat → List Nat → List Nat → Bool → List Nat → Nat → FOut)
    (decFuel : Nat) (server hostname : List Nat) (mx : Bool) (root : List Nat)
    (count : Nat) (r : List Nat) (a so n t : Nat)
    (henv : env server hostname mx = r)
    (hparse : parseResponse r = some (a, so, n))
    (htype : findType r decFuel = .ok t)
    (hcond : so = 51 ∨ t = 6) :
    findBody env rec decFuel server hostname mx root count
      = if count = 0 then .str strTLD
        else if count = 1 then .str strDomain
        else .str strSub := by
  simp only [findBody, henv, hparse, htype]
  rw [if_pos hcond]

/-- The CNAME branch of the body: type 5 restarts at the CNAME target from
`root`. -/
lemma findBody_cname (env : List Nat → List Nat → Bool → List Nat)
    (rec : Nat → List Nat → List Nat → Bool → List Nat → Nat → FOut)
    (decFuel : Nat) (server hostname : List Nat) (mx : Bool) (root : List Nat)
    (count : Nat) (r : List Nat) (a so n : Nat) (cname : List Nat)
    (henv : env server hostname mx = r)
    (hparse : parseResponse r = some (a, so, n))
    (hso : so ≠ 51)
    (htype : findType r decFuel = .ok 5)
    (hcn : findCname r decFuel = .ok cname) :
    findBody env rec decFuel server hostname mx root count
      = rec decFuel root cname mx root (count + 1) := by
  simp only [findBody, henv, hparse, htype]
  rw [if_neg (fun hc => hc.elim hso (by omega))]
  norm_num
  simp only [hcn]

/-- The authoritative MX branch of the body: `auth` digit `4` with `mx` set
re-resolves the mail target from `root` with the flag cleared. -/
lemma findBody_mx (env : List Nat → List Nat → Bool → List Nat)
    (rec : Nat → List Nat → List Nat → Bool → List Nat → Nat → FOut)
    (decFuel : Nat) (server hostname : List Nat) (root : List Nat)
    (count : Nat) (r : List Nat) (so n t : Nat) (m : List Nat)
    (henv : env server hostname true = r)
    (hparse : parseResponse r = some (52, so, n))
    (hso : so ≠ 51)
    (htype : findType r decFuel = .ok t) (ht6 : t ≠ 6) (ht5 : t ≠ 5)
    (hmail : findMail r decFuel = .ok m) :
    findBody env rec decFuel server hostname true root count
      = rec decFuel root m false root (count + 1) := by
  simp only [findBody, henv, hparse, htype]
  rw [if_neg (fun hc => hc.elim hso ht6), if_neg ht5]
  norm_num
  simp only [hmail]

/-- The authoritative A branch of the body: `auth` digit `4`, `mx` clear. -/
lemma findBody_answer (env : List Nat → List Nat → Bool → List Nat)
    (rec : Nat → List Nat → List Nat → Bool → List Nat → Nat → FOut)
    (decFuel : Nat) (server hostname : List Nat) (root : List Nat)
    (count : Nat) (r : List Nat) (so n t : Nat) (ip : List Nat)
    (henv : env server hostname false = r)
    (hparse : parseResponse r = some (52, so, n))
    (hso : so ≠ 51)
    (htype : findType r decFuel = .ok t) (ht6 : t ≠ 6) (ht5 : t ≠ 5)
    (hip : findAnswer r 1 decFuel = .ok ip) :
    findBody env rec decFuel server hostname false root count = .str ip := by
  simp only [findBody, henv, hparse, htype]
  rw [if_neg (fun hc => hc.elim hso ht6), if_neg ht5]
  norm_num
  simp only [hip]

/-- The referral branch of the body: none of the other branches applies, so
the `createNS` list decides the outcome — its head is queried next, and an
empty list yields Python `None`. -/
lemma findBody_referral (env : List Nat → List Nat → Bool → List Nat)
    (rec : Nat → List Nat → List Nat → Bool → List Nat → Nat → FOut)
    (decFuel : Nat) (server hostname : List Nat) (mx : Bool) (root : List Nat)
    (count : Nat) (r : List Nat) (a so n t : Nat) (l : List (List Nat))
    (henv : env server hostname mx = r)
    (hparse : parseResponse r = some (a, so, n))
    (hso : so ≠ 51)
    (htype : findType r decFuel = .ok t) (ht6 : t ≠ 6) (ht5 : t ≠ 5)
    (ha : a ≠ 52)
    (hns : createNS r n decFuel = .ok l) :
    findBody env rec decFuel server hostname mx root count
      = match l with
        | [] => FOut.nil
        | nsname :: _ => rec decFuel nsname hostname mx root (count + 1) := by
  simp only [findBody, henv, hparse, htype]
  rw [if_neg (fun hc => hc.elim hso ht6), if_neg ht5, if_neg ha]
  simp only [hns]
  cases l <;> rfl

/-- Wire encoding of a label list: length prefix then bytes, per label. -/
def labelsEnc : List (List Nat) → List Nat
  | [] => []
  | l :: ls => l.length :: l ++ labelsEnc ls

/-- Each label followed by a dot — the shape of the decoder accumulator. -/
def dotted : List (List Nat) → List Nat
  | [] => []
  | l :: ls => l ++ 46 :: dotted ls

/-- Labels joined with single dots: the dotted name string itself. -/
def joinDots : List (List Nat) → List Nat
  | [] => []
  | [l] => l
  | l :: ls => l ++ 46 :: joinDots ls

/-- A length byte of at most 63 is not treated as a compression pointer. -/
lemma small_not_pointer (n : Nat) (h : n ≤ 63) :
    ¬(n &&& (1 <<< 7) ≠ 0 ∧ n &&& (1 <<< 6) ≠ 0) := by
  intro hc
  have h128 : n &&& (1 <<< 7) = 0 := by
    have ht := Nat.and_two_pow n 7
    rw [Nat.testBit_eq_false_of_lt (by omega)] at ht
    simpa using ht
  exact hc.1 h128

/-- One literal label consumes one loop iteration of `networkToString`:
the label bytes and a dot are appended to the accumulator and the position
advances past the length byte and the label. -/
lemma networkToString_label_step (resp pre lab rest acc : List Nat) (fuel : Nat)
    (h1 : 1 ≤ lab.length) (h2 : lab.length ≤ 63)
    (hmsg : resp = pre ++ lab.length :: (lab ++ rest)) :
    networkToString resp (fuel + 1) pre.length acc =
      networkToString resp fuel (pre.length + 1 + lab.length) (acc ++ lab ++ [46]) := by
  subst hmsg
  have hget : (pre ++ lab.length :: (lab ++ rest))[pre.length]? = some lab.length := by
    rw [List.getElem?_append_right (le_refl _)]
    simp
  have hbound : pre.length + 1 + lab.length ≤ (pre ++ lab.length :: (lab ++ rest)).length := by
    simp [List.length_append]
    omega
  have hslice : ((pre ++ lab.length :: (lab ++ rest)).drop (pre.length + 1)).take lab.length
      = lab := by
    have hsplit : pre ++ lab.length :: (lab ++ rest) = (pre ++ [lab.length]) ++ (lab ++ rest) := by
      simp
    rw [hsplit]
    have hl : pre.length + 1 = (pre ++ [lab.length]).length := by simp
    rw [hl, List.drop_left, List.take_left]
  simp only [networkToString, hget]
  rw [if_neg (by omega : ¬ lab.length = 0), if_neg (small_not_pointer lab.length h2),
    if_pos hbound, hslice]

/-- Decoding a run of well-formed literal labels walks the whole run,
appending each label and a dot to the accumulator. -/
lemma networkToString_labels (labels : List (List Nat)) :
    ∀ (pre rest acc : List Nat) (fuel : Nat),
      (∀ l ∈ labels, 1 ≤ l.length ∧ l.length ≤ 63) →
      networkToString (pre ++ labelsEnc labels ++ rest) (fuel + labels.length) pre.length acc =
        networkToString (pre ++ labelsEnc labels ++ rest) fuel
          (pre.length + (labelsEnc labels).length) (acc ++ dotted labels) := by
  induction labels with
  | nil =>
    intro pre rest acc fuel _
    simp [labelsEnc, dotted]
  | cons l ls ih =>
    intro pre rest acc fuel hwf
    have hl := hwf l (by simp)
    have hmsg : pre ++ labelsEnc (l :: ls) ++ rest
        = pre ++ l.length :: (l ++ (labelsEnc ls ++ rest)) := by
      simp [labelsEnc]
    have hstep := networkToString_label_step (pre ++ labelsEnc (l :: ls) ++ rest) pre l
      (labelsEnc ls ++ rest) acc (fuel + ls.length) hl.1 hl.2 hmsg
    have hmsg2 : pre ++ labelsEnc (l :: ls) ++ rest
        = (pre ++ l.length :: l) ++ labelsEnc ls ++ rest := by
      simp [labelsEnc]
    have hih := ih (pre ++ l.length :: l) rest (acc ++ l ++ [46]) fuel
      (fun x hx => hwf x (by simp [hx]))
    rw [← hmsg2] at hih
    have hpos : (pre ++ l.length :: l).length = pre.length + 1 + l.length := by
      simp
      omega
    rw [hpos] at hih
    have hfuel : fuel + (l :: ls).length = (fuel + ls.length) + 1 := by
      simp
      omega
    rw [hfuel, hstep, hih]
    have hlen : pre.length + 1 + l.length + (labelsEnc ls).length
        = pre.length + (labelsEnc (l :: ls)).length := by
      simp [labelsEnc]
      omega
    have hacc : acc ++ l ++ [46] ++ dotted ls = acc ++ dotted (l :: ls) := by
      simp [dotted]
    rw [hlen, hacc]

/-- A dot-free string splits into a single piece. -/
lemma splitOnDot_no_dot (l : List Nat) (h : 46 ∉ l) : splitOnDot l = [l] := by
  induction l with
  | nil => rfl
  | cons c rest ih =>
    have hc : c ≠ 46 := fun hc => h (by simp [hc])
    have hr : splitOnDot rest = [rest] := ih (fun hm => h (by simp [hm]))
    simp [splitOnDot, hr, hc]

/-- Python split never returns an empty list of pieces. -/
lemma splitOnDot_ne_nil (s : List Nat) : splitOnDot s ≠ [] := by
  cases s with
  | nil => simp [splitOnDot]
  | cons c rest =>
    simp only [splitOnDot]
    match h : splitOnDot rest with
    | [] => simp
    | l :: ls => by_cases hc : c = 46 <;> simp [hc]

/-- Splitting distributes over a leading dot-free piece and a dot. -/
lemma splitOnDot_append (l t : List Nat) (h : 46 ∉ l) :
    splitOnDot (l ++ 46 :: t) = l :: splitOnDot t := by
  induction l with
  | nil =>
    simp only [List.nil_append, splitOnDot]
    match ht : splitOnDot t with
    | [] => exact absurd ht (splitOnDot_ne_nil t)
    | m :: ms => simp
  | cons c rest ih =>
    have hc : c ≠ 46 := fun hc => h (by simp [hc])
    have hr := ih (fun hm => h (by simp [hm]))
    have hstep : (c :: rest) ++ 46 :: t = c :: (rest ++ 46 :: t) := rfl
    rw [hstep]
    simp only [splitOnDot]
    rw [hr]
    simp [hc]

/-- Python split is a left inverse of joining labels with dots, for nonempty
dot-free label lists. -/
lemma splitOnDot_joinDots (labels : List (List Nat)) (hne : labels ≠ [])
    (hnd : ∀ l ∈ labels, 46 ∉ l) : splitOnDot (joinDots labels) = labels := by
  induction labels with
  | nil => exact absurd rfl hne
  | cons l ls ih =>
    cases ls with
    | nil => exact splitOnDot_no_dot l (hnd l (by simp))
    | cons l2 ls2 =>
      have hj : joinDots (l :: l2 :: ls2) = l ++ 46 :: joinDots (l2 :: ls2) := rfl
      rw [hj, splitOnDot_append l _ (hnd l (by simp)),
        ih (by simp) (fun x hx => hnd x (by simp [hx]))]

/-- `dotted` of a nonempty label list is nonempty. -/
lemma dotted_ne_nil (labels : List (List Nat)) (hne : labels ≠ []) :
    dotted labels ≠ [] := by
  cases labels with
  | nil => exact absurd rfl hne
  | cons l ls => cases l <;> simp [dotted]

/-- Stripping the final dot from the accumulator yields the dotted name. -/
lemma dotted_dropLast (labels : List (List Nat)) (hne : labels ≠ []) :
    (dotted labels).dropLast = joinDots labels := by
  induction labels with
  | nil => exact absurd rfl hne
  | cons l ls ih =>
    cases ls with
    | nil => simp [dotted, joinDots]
    | cons l2 ls2 =>
      have hd : dotted (l :: l2 :: ls2) = (l ++ [46]) ++ dotted (l2 :: ls2) := by
        simp [dotted]
      rw [hd, List.dropLast_append_of_ne_nil _ (dotted_ne_nil _ (by simp)), ih (by simp)]
      simp [joinDots]

/-- The encoding loop succeeds on labels of at most 255 bytes and produces
the concatenation of length-prefixed labels. -/
lemma encodeLabels_ok (labels : List (List Nat)) (h : ∀ l ∈ labels, l.length ≤ 255) :
    encodeLabels labels = some (labelsEnc labels) := by
  induction labels with
  | nil => rfl
  | cons l ls ih =>
    have hl : l.length ≤ 255 := h l (by simp)
    rw [encodeLabels, if_pos hl, ih (fun x hx => h x (by simp [hx]))]
    rfl

/-- The encoding loop fails as soon as some label exceeds 255 bytes. -/
lemma encodeLabels_fail (labels : List (List Nat)) (h : ∃ l ∈ labels, 255 < l.length) :
    encodeLabels labels = none := by
  induction labels with
  | nil => simp at h
  | cons l ls ih =>
    rcases h with ⟨x, hx, hlen⟩
    rcases List.mem_cons.1 hx with rfl | hx2
    · rw [encodeLabels, if_neg (by omega)]
    · by_cases hl : l.length ≤ 255
      · rw [encodeLabels, if_pos hl, ih ⟨x, hx2, hlen⟩]
        rfl
      · rw [encodeLabels, if_neg hl]

/-- Claim C2: for every domain name whose labels are each 1 to 63 bytes
(dot-free, in the byte model) and whose total wire encoding is at most 255
bytes, decoding the result of encoding the name — `networkToString` at
offset 0 on `stringToNetwork name`, no compression pointers involved —
returns the original dotted name.  The name is presented as its label list;
`joinDots labels` is the dotted string handed to `stringToNetwork`. -/
theorem claim_C2_theorem (labels : List (List Nat)) (hne : labels ≠ [])
    (hwf : ∀ l ∈ labels, 1 ≤ l.length ∧ l.length ≤ 63 ∧ 46 ∉ l)
    (htot : (labelsEnc labels).length + 1 ≤ 255) :
    ∃ enc, stringToNetwork (joinDots labels) = some enc ∧
      networkToString enc (labels.length + 1) 0 [] = .ok (joinDots labels, enc.length) := by
  refine ⟨labelsEnc labels ++ [0], ?_, ?_⟩
  · rw [stringToNetwork, splitOnDot_joinDots labels hne (fun l hl => (hwf l hl).2.2),
      encodeLabels_ok labels (fun l hl => by have := (hwf l hl).2.1; omega)]
    rfl
  · have hwalk := networkToString_labels labels [] [0] [] 1
      (fun l hl => ⟨(hwf l hl).1, (hwf l hl).2.1⟩)
    simp only [List.nil_append, List.length_nil, Nat.zero_add] at hwalk
    rw [Nat.add_comm labels.length 1, hwalk]
    have hget : (labelsEnc labels ++ [0])[(labelsEnc labels).length]? = some 0 := by
      rw [List.getElem?_append_right (le_refl _)]
      simp
    show networkToString (labelsEnc labels ++ [0]) (0 + 1) (labelsEnc labels).length
        (dotted labels) = _
    simp only [networkToString, hget, if_pos rfl]
    rw [dotted_dropLast labels hne]
    simp

/-- Witness for claim C2 at the concrete name `w.ed` (labels `w` and `ed`). -/
theorem claim_C2_witness :
    ∃ enc, stringToNetwork (joinDots [[119], [101, 100]]) = some enc ∧
      networkToString enc ([[119], [101, 100]].length + 1) 0 []
        = .ok (joinDots [[119], [101, 100]], enc.length) :=
  claim_C2_theorem [[119], [101, 100]] (by decide) (by decide) (by decide)

/-- Message refuting claim C1 as stated: at offset 300 it holds the 2-byte
pointer `0xC1 0x00`, whose 14-bit value is `(1 <<< 8) + 0 = 256`; offset 256
holds the name `c` (a one-byte label, byte 99) and offset 1 holds the name
`b` (byte 98); everything else is padding zeros. -/
def C1msg : List Nat :=
  List.replicate 1 0 ++ 1 :: 98 :: 0 ::
    (List.replicate 252 0 ++ 1 :: 99 :: 0 :: (List.replicate 41 0 ++ [193, 0]))

/-- Claim C1 counterexample.  The pointer `0xC1 0x00` at offset 300 refers
(per the 14-bit reading in the claim) to the earlier name at offset 256,
which decodes to `c` — the second conjunct.  But `networkToString` computes
the target as `(0xC1 AND 63) + 0 = 1`, not `((0xC1 AND 63) <<< 8) + 0 = 256`
(resolver.py:78-82 sums the low bits of both pointer bytes without shifting
the first), so decoding at 300 returns the name `b` found at offset 1 — not
the dereferenced name the claim requires.  The next-offset 302 = 300 + 2 is
as claimed; the returned name is not. -/
theorem claim_C1_counterexample :
    networkToString C1msg 10 300 [] = .ok ([98], 302) ∧
    networkToString C1msg 10 256 [] = .ok ([99], 259) ∧
    ([98] : List Nat) ≠ [99] :=
  ⟨by decide, by decide, by decide⟩

/-- Claim C1, amended.  The claim holds once the pointer is restricted to
first byte exactly `0xC0 = 192`, so that the 14-bit target coincides with
what the code computes, namely the second pointer byte alone (hence a target
below 256): for a name consisting of literal labels (each 1 to 63 bytes)
followed by such a pointer whose target decodes to `d`, decoding returns the
labels (each with a trailing dot) followed by `d`, and the next-offset is
exactly pointerStart + 2, independent of the length or end position `e` of
the pointed-to name. -/
theorem claim_C1_theorem (labels : List (List Nat)) (pre post d : List Nat) (b2 e F : Nat)
    (hwf : ∀ l ∈ labels, 1 ≤ l.length ∧ l.length ≤ 63)
    (hb2 : b2 ≤ 255)
    (hderef : networkToString (pre ++ labelsEnc labels ++ 192 :: b2 :: post) F b2 []
      = .ok (d, e)) :
    networkToString (pre ++ labelsEnc labels ++ 192 :: b2 :: post) (F + 1 + labels.length)
      pre.length []
      = .ok (dotted labels ++ d, pre.length + (labelsEnc labels).length + 2) := by
  have hwalk := networkToString_labels labels pre (192 :: b2 :: post) [] (F + 1) hwf
  rw [hwalk]
  have hassoc : pre ++ labelsEnc labels ++ 192 :: b2 :: post
      = (pre ++ labelsEnc labels) ++ 192 :: b2 :: post := by simp
  have hlen : (pre ++ labelsEnc labels).length = pre.length + (labelsEnc labels).length := by
    simp
  have hget : (pre ++ labelsEnc labels ++ 192 :: b2 :: post)[pre.length
      + (labelsEnc labels).length]? = some 192 := by
    rw [hassoc, ← hlen, List.getElem?_append_right (le_refl _)]
    simp
  have hget2 : (pre ++ labelsEnc labels ++ 192 :: b2 :: post)[pre.length
      + (labelsEnc labels).length + 1]? = some b2 := by
    rw [hassoc, ← hlen, List.getElem?_append_right (by omega)]
    simp
  have hoff : (192 &&& 63) + (b2 &&& 255) = b2 := by
    have hm : b2 &&& 255 = b2 % 256 := by
      have hq := Nat.and_pow_two_sub_one_eq_mod b2 8
      norm_num at hq
      exact hq
    have h192 : (192 : Nat) &&& 63 = 0 := by decide
    rw [h192, hm]
    omega
  simp only [networkToString, hget, hget2]
  rw [if_neg (by omega : ¬ (192 : Nat) = 0), if_pos (by decide), hoff, hderef]
  simp

/-- Witness for the amended claim C1 on the message `00 01 77 C0 00`: one
literal label `w`, then a pointer with first byte `0xC0` whose target 0
holds the empty name, so decoding at offset 1 returns `w.` with next-offset
5 = pointerStart + 2. -/
theorem claim_C1_witness :
    networkToString [0, 1, 119, 192, 0] 3 1 [] = .ok ([119, 46], 5) := by
  have h := claim_C1_theorem [[119]] [0] [] [] 0 1 1 (by decide) (by decide) (by decide)
  simpa [labelsEnc, dotted] using h

/-- Claim C8 counterexample: a 64-byte label (64 bytes `a`) encodes without
any failure — `stringToNetwork` emits the length byte 64 followed by the
label — refuting the claim that encoding fails with `InvalidName` whenever
a label exceeds 63 bytes. -/
theorem claim_C8_counterexample :
    stringToNetwork (List.replicate 64 97) = some (64 :: (List.replicate 64 97 ++ [0])) ∧
    stringToNetwork (List.replicate 64 97) ≠ none :=
  ⟨by decide, by decide⟩

/-- Claim C8, amended: `stringToNetwork` performs no 63-byte label or
255-byte total validation at all.  It encodes every name whose labels
(pieces of the dot-split) are at most 255 bytes as length-prefixed labels
plus a terminating zero, and it fails — with `struct.error` from
`pack("B", len(item))`, not an `InvalidName` — exactly when some label
exceeds 255 bytes. -/
theorem claim_C8_theorem (s : List Nat) :
    ((∀ l ∈ splitOnDot s, l.length ≤ 255) →
      stringToNetwork s = some (labelsEnc (splitOnDot s) ++ [0])) ∧
    ((∃ l ∈ splitOnDot s, 255 < l.length) → stringToNetwork s = none) := by
  constructor
  · intro h
    rw [stringToNetwork, encodeLabels_ok _ h]
    rfl
  · intro h
    rw [stringToNetwork, encodeLabels_fail _ h]
    rfl

/-- Witness for the amended claim C8: the one-letter name `a` encodes, and a
256-byte label makes the encoder raise. -/
theorem claim_C8_witness :
    stringToNetwork [97] = some (labelsEnc (splitOnDot [97]) ++ [0]) ∧
    stringToNetwork (List.replicate 256 97) = none :=
  ⟨(claim_C8_theorem [97]).1 (by decide),
   (claim_C8_theorem (List.replicate 256 97)).2 (by decide)⟩

/-- On the two-byte message `C0 00` — a compression pointer whose computed
target is its own position 0 — the decoder recurses into itself and never
terminates: it runs out of any amount of fuel. -/
lemma selfPointer_noFuel : ∀ F, networkToString [192, 0] F 0 [] = .noFuel := by
  intro F
  induction F with
  | zero => rfl
  | succ f ih =>
    have hstep : networkToString [192, 0] (f + 1) 0 []
        = (match networkToString [192, 0] f 0 [] with
           | .ok (d, _) => .ok (([] : List Nat) ++ d, 0 + 2)
           | .exn => .exn
           | .noFuel => .noFuel) := rfl
    rw [hstep, ih]

/-- Claim C7 counterexample: on the self-pointer message `C0 00` the decode
starting at offset 0 does not terminate (1000 fuel — far beyond the 128
pointer hops the claim allows — is exhausted without any result), and in
particular no `MalformedMessage`-style failure is raised.  The code checks
neither that a pointer target is strictly below the current offset nor any
hop bound (resolver.py:76-84). -/
theorem claim_C7_counterexample :
    networkToString [192, 0] 1000 0 [] = PRes.noFuel ∧
    networkToString [192, 0] 1000 0 [] ≠ PRes.exn := by
  have h := selfPointer_noFuel 1000
  exact ⟨h, by rw [h]; decide⟩

/-- Claim C7, amended: `networkToString` has no pointer guard at all.  On a
pointer whose computed target equals its own position it diverges — for
every fuel the fuel-bounded model returns `noFuel` — and on a truncated
message it raises the `struct.error` of an out-of-range read (modelled
`exn`), not a typed `MalformedMessage`. -/
theorem claim_C7_theorem :
    (∀ F, networkToString [192, 0] F 0 [] = PRes.noFuel) ∧
    networkToString [] 5 0 [] = PRes.exn :=
  ⟨selfPointer_noFuel, by decide⟩

/-- A pure referral response: flags `0x8000`, one question `a` (A/IN), zero
answers, one authority record — an NS record named `b` whose data field is
the name `c`.  Used as the response of a server that always delegates. -/
def refMsg : List Nat :=
  [0, 0, 128, 0, 0, 1, 0, 0, 0, 1, 0, 0,
   1, 97, 0, 0, 1, 0, 1,
   1, 98, 0, 0, 2, 0, 1, 0, 0, 0, 0, 0, 3, 1, 99, 0]

/-- An environment in which every server answers every query with the same
referral `refMsg`: an endless delegation chain. -/
def refEnv : List Nat → List Nat → Bool → List Nat := fun _ _ _ => refMsg

/-- Under the endless-referral environment, `find` consumes every hop
budget without reaching any outcome: the source recursion is unbounded. -/
lemma refEnv_noFuel : ∀ (f : Nat) (s : List Nat) (c : Nat),
    find refEnv f 10 s [97] false [97] c = .noFuel := by
  intro f
  induction f with
  | zero => intro s c; rfl
  | succ g ih =>
    intro s c
    rw [find_succ, findBody_referral refEnv (find refEnv g) 10 s [97] false [97] c
      refMsg 48 48 1 2 [[99]] rfl (by decide) (by decide) (by decide) (by decide)
      (by decide) (by decide) (by decide)]
    exact ih [99] (c + 1)

/-- Claim C6 counterexample: under the endless-referral environment the
resolver is still running after 200 hops (more than the 128-hop bound the
spec suggests) and terminates with no outcome at all — in particular not
with any `MaxHopsExceeded` outcome, which does not exist in the code:
`find` (resolver.py:264) recurses on every referral with no hop limit. -/
theorem claim_C6_counterexample :
    find refEnv 200 10 [97] [97] false [97] 0 = FOut.noFuel :=
  refEnv_noFuel 200 [97] 0

/-- Claim C6, amended: the resolver enforces no maximum-hop bound.  Under an
environment that always returns a referral, `find` exhausts every hop
budget without producing a result, for every starting server and depth;
runaway referral chains recurse without bound instead of producing a
`MaxHopsExceeded` outcome. -/
theorem claim_C6_theorem :
    ∀ (hopFuel : Nat) (s : List Nat) (c : Nat),
      find refEnv hopFuel 10 s [97] false [97] c = FOut.noFuel :=
  fun f s c => refEnv_noFuel f s c

/-- A response whose flags are `0x8000` and whose authority section holds
two records: first an NS record (`b`, data `c`), then an SOA record (`d`,
empty-name data).  The authority section contains an SOA record, yet the
probed type — taken from the first record only — is 2. -/
def soaSecondMsg : List Nat :=
  [0, 0, 128, 0, 0, 1, 0, 0, 0, 2, 0, 0,
   1, 97, 0, 0, 1, 0, 1,
   1, 98, 0, 0, 2, 0, 1, 0, 0, 0, 0, 0, 3, 1, 99, 0,
   1, 100, 0, 0, 6, 0, 1, 0, 0, 0, 0, 0, 1, 0]

/-- Claim C3 counterexample: a response whose authority section contains an
SOA record (its second record) should, per the claim, end the lookup at
depth 0 with the `Invalid TLD` outcome and no further query.  But `findType`
probes only the first record after the question (an NS record, type 2), so
`find` takes the referral branch and keeps querying: with the server always
returning this response, two hops of budget are consumed with no outcome. -/
theorem claim_C3_counterexample :
    find (fun _ _ _ => soaSecondMsg) 2 10 [97] [97] false [97] 0 = FOut.noFuel ∧
    FOut.noFuel ≠ FOut.str strTLD :=
  ⟨by decide, by decide⟩

/-- Claim C3, amended: the name-error test the code performs is that the
fourth hex digit of the flags is the character `3` (response code 3, which
requires the flags to parse, i.e. to have four hex digits) or that the type
probed from the first record after the question is 6.  Whenever that test
holds, the resolver terminates the lookup with the depth-indexed outcome —
`Invalid TLD` at depth 0, `Invalid domain` at depth 1, the subdomain
message at greater depths — and issues no further query. -/
theorem claim_C3_theorem (env : List Nat → List Nat → Bool → List Nat)
    (f F : Nat) (s h root : List Nat) (mx : Bool) (c : Nat)
    (r : List Nat) (a so n t : Nat)
    (henv : env s h mx = r)
    (hparse : parseResponse r = some (a, so, n))
    (htype : findType r F = .ok t)
    (hcond : so = 51 ∨ t = 6) :
    find env (f + 1) F s h mx root c
      = if c = 0 then FOut.str strTLD
        else if c = 1 then FOut.str strDomain
        else FOut.str strSub := by
  rw [find_succ]
  exact findBody_nameError env (find env f) F s h mx root c r a so n t henv hparse
    htype hcond

/-- A response whose first record after the question is an SOA record. -/
def soaMsg : List Nat :=
  [0, 0, 128, 0, 0, 1, 0, 0, 0, 1, 0, 0,
   1, 97, 0, 0, 1, 0, 1,
   1, 100, 0, 0, 6, 0, 1, 0, 0, 0, 0, 0, 0]

/-- Witness for the amended claim C3: an SOA-first response at depth 0
yields the `Invalid TLD` string. -/
theorem claim_C3_witness :
    find (fun _ _ _ => soaMsg) 1 10 [97] [97] false [97] 0 = FOut.str strTLD := by
  have h := claim_C3_theorem (fun _ _ _ => soaMsg) 0 10 [97] [97] [97] false 0 soaMsg
    48 48 1 6 rfl (by decide) (by decide) (Or.inr rfl)
  simpa using h

/-- A response with one answer record (an A record) and an authority count
of zero: the referral branch extracts no record and falls through. -/
def emptyRefMsg : List Nat :=
  [0, 0, 128, 0, 0, 1, 0, 1, 0, 0, 0, 0,
   1, 97, 0, 0, 1, 0, 1,
   1, 98, 0, 0, 1, 0, 1, 0, 0, 0, 0, 0, 4, 1, 2, 3, 4]

/-- Claim C4 counterexample: on a referral-branch response whose extracted
name-server list is empty (`ns_count` 0), `find` returns Python `None`
(modelled `FOut.nil`) — it does not fail with any `UnresolvedReferral`
error; no exception is raised at this point (the failure surfaces only when
the caller manipulates the `None`). -/
theorem claim_C4_counterexample :
    find (fun _ _ _ => emptyRefMsg) 1 10 [97] [97] false [97] 0 = FOut.nil ∧
    FOut.nil ≠ FOut.exn :=
  ⟨by decide, by decide⟩

/-- Claim C4, amended: in the referral branch (no name error by the code
test of claim C3, probed type neither 5 nor 6, `auth` hex digit not the
character `4` — which is implied by a clear authoritative-answer bit),
`createNS` collects the data-field names (not the record names) of the
first `ns_count` records after the question — the authority section when
the answer section is empty — and `find` queries the first entry at depth
`count + 1`; an empty list produces Python `None` rather than an
`UnresolvedReferral` failure. -/
theorem claim_C4_theorem (env : List Nat → List Nat → Bool → List Nat)
    (f F : Nat) (s h : List Nat) (mx : Bool) (root : List Nat) (c : Nat)
    (r : List Nat) (a so n t : Nat) (l : List (List Nat))
    (henv : env s h mx = r)
    (hparse : parseResponse r = some (a, so, n))
    (hso : so ≠ 51)
    (htype : findType r F = .ok t) (ht6 : t ≠ 6) (ht5 : t ≠ 5)
    (ha : a ≠ 52)
    (hns : createNS r n F = .ok l) :
    find env (f + 1) F s h mx root c
      = match l with
        | [] => FOut.nil
        | nsname :: _ => find env f F nsname h mx root (c + 1) := by
  rw [find_succ]
  exact findBody_referral env (find env f) F s h mx root c r a so n t l henv hparse
    hso htype ht6 ht5 ha hns

/-- Witness for the amended claim C4 on the endless-referral environment:
the referral response names `c` (byte 99) in the data field of its NS
record, and `find` with hop budget 1 performs exactly the step to server
`c` at depth 1, where the budget runs out. -/
theorem claim_C4_witness :
    find refEnv 1 10 [97] [97] false [97] 0 = FOut.noFuel := by
  have h := claim_C4_theorem refEnv 0 10 [97] [97] false [97] 0 refMsg 48 48 1 2 [[99]]
    rfl (by decide) (by decide) (by decide) (by decide) (by decide) (by decide)
    (by decide)
  exact h.trans rfl

/-- An authoritative MX response: flags `0x8480` (`auth` digit `4`), one MX
answer whose target name is `m` (byte 109). -/
def mxMsgAuth : List Nat :=
  [0, 0, 132, 128, 0, 1, 0, 1, 0, 0, 0, 0,
   1, 97, 0, 0, 15, 0, 1,
   1, 97, 0, 0, 15, 0, 1, 0, 0, 0, 0, 0, 5, 0, 10, 1, 109, 0]

/-- The same MX response but with flags `0x8580`: the authoritative-answer
bit is still set (bit 10 of `0x8580`), but the recursion-desired bit is set
too, so the second hex digit of the flags is `5`, not `4`. -/
def mxMsgRD : List Nat :=
  [0, 0, 133, 128, 0, 1, 0, 1, 0, 0, 0, 0,
   1, 97, 0, 0, 15, 0, 1,
   1, 97, 0, 0, 15, 0, 1, 0, 0, 0, 0, 0, 5, 0, 10, 1, 109, 0]

/-- An authoritative A response for the name `m`: flags `0x8480`, one
answer whose data is the four bytes 93.184.216.34. -/
def aMsg : List Nat :=
  [0, 0, 132, 128, 0, 1, 0, 1, 0, 0, 0, 0,
   1, 109, 0, 0, 1, 0, 1,
   1, 109, 0, 0, 1, 0, 1, 0, 0, 0, 0, 0, 4, 93, 184, 216, 34]

/-- Environment for the claim C5 witness: MX queries get the authoritative
MX response, address queries the authoritative A response. -/
def mxEnvGood : List Nat → List Nat → Bool → List Nat :=
  fun _ _ mx => if mx then mxMsgAuth else aMsg

/-- Environment for the claim C5 counterexample: like `mxEnvGood` but the
MX response carries flags `0x8580` (authoritative-answer bit set together
with the recursion-desired bit). -/
def mxEnvRD : List Nat → List Nat → Bool → List Nat :=
  fun _ _ mx => if mx then mxMsgRD else aMsg

/-- Claim C5 counterexample.  `mxMsgRD` is an authoritative response (the
authoritative-answer bit of flags `0x8580` is set) to a wantMX query, with
no CNAME; the claim requires a follow-up address resolution of the MX
target `m` — which in this environment would return the string
`93.184.216.34` (second conjunct).  Instead, because the code tests the
flags hex digit (`hex(flags)[3] == '4'`, false for `0x8580` where the digit
is `5`), `find` takes the referral branch, extracts no name server
(`ns_count` 0), and returns Python `None`. -/
theorem claim_C5_counterexample :
    find mxEnvRD 3 10 [97] [104] true [97] 0 = FOut.nil ∧
    find mxEnvRD 2 10 [97] [109] false [97] 1 = FOut.str (inet_ntoa4 93 184 216 34) ∧
    FOut.nil ≠ FOut.str (inet_ntoa4 93 184 216 34) :=
  ⟨by decide, by decide, by decide⟩

/-- Claim C5, amended: for every response to a wantMX query that the code
classifies as authoritative — second hex digit of the flags equal to the
character `4` (authoritative-answer bit set with truncation and
recursion-desired clear and an even opcode), no name error by the code
test, probed type neither 5 nor 6 — the resolver extracts the MX target
with `findMail` and issues a new resolution for it with wantMX false,
starting again from `root` at depth `count + 1`, rather than returning the
target name. -/
theorem claim_C5_theorem (env : List Nat → List Nat → Bool → List Nat)
    (f F : Nat) (s h root : List Nat) (c : Nat)
    (r : List Nat) (so n t : Nat) (m : List Nat)
    (henv : env s h true = r)
    (hparse : parseResponse r = some (52, so, n))
    (hso : so ≠ 51)
    (htype : findType r F = .ok t) (ht6 : t ≠ 6) (ht5 : t ≠ 5)
    (hmail : findMail r F = .ok m) :
    find env (f + 1) F s h true root c = find env f F root m false root (c + 1) := by
  rw [find_succ]
  exact findBody_mx env (find env f) F s h root c r so n t m henv hparse hso htype
    ht6 ht5 hmail

/-- Witness for the amended claim C5: with flags `0x8480` the MX response
triggers the follow-up address resolution of the target `m`, which the
A response resolves to `93.184.216.34`. -/
theorem claim_C5_witness :
    find mxEnvGood 2 10 [97] [104] true [97] 0 = FOut.str (inet_ntoa4 93 184 216 34) := by
  have h := claim_C5_theorem mxEnvGood 1 10 [97] [104] [97] 0 mxMsgAuth 48 0 15 [109]
    rfl (by decide) (by decide) (by decide) (by decide) (by decide) (by decide)
  rw [h]
  decide

/-- Claim C9: for every 16-bit transaction ID, encodable hostname, and
wantMX flag, `constructQuery` produces the 12-byte header with flags bytes
`0, 0`, question count `0, 1`, and all other counts zero, followed by the
encoded name, the qtype bytes (`0, 15` when wantMX, `0, 1` otherwise) and
the qclass bytes `0, 1`; the output is byte-identical across calls with
identical arguments — two queries with the same name and flag differ only
in the leading 2-byte transaction-ID field `packH id`. -/
theorem claim_C9_theorem (id1 id2 : Nat) (host q : List Nat) (mx : Bool)
    (h1 : id1 < 65536) (h2 : id2 < 65536)
    (hq : stringToNetwork host = some q) :
    constructQuery id1 host mx
      = some (packH id1 ++ [0, 0, 0, 1, 0, 0, 0, 0, 0, 0] ++ q
          ++ [0, if mx then 15 else 1, 0, 1]) ∧
    constructQuery id2 host mx
      = some (packH id2 ++ [0, 0, 0, 1, 0, 0, 0, 0, 0, 0] ++ q
          ++ [0, if mx then 15 else 1, 0, 1]) := by
  constructor
  · rw [constructQuery, if_pos h1, hq]
    cases mx <;> simp [packH]
  · rw [constructQuery, if_pos h2, hq]
    cases mx <;> simp [packH]

/-- Witness for claim C9: queries for the name `a` with IDs 1 and 2 agree
on every byte after the 2-byte ID field. -/
theorem claim_C9_witness :
    constructQuery 1 [97] false
      = some [0, 1, 0, 0, 0, 1, 0, 0, 0, 0, 0, 0, 1, 97, 0, 0, 1, 0, 1] ∧
    constructQuery 2 [97] false
      = some [0, 2, 0, 0, 0, 1, 0, 0, 0, 0, 0, 0, 1, 97, 0, 0, 1, 0, 1] := by
  have h := claim_C9_theorem 1 2 [97] [1, 97, 0] false (by decide) (by decide) (by decide)
  exact ⟨by simpa [packH] using h.1, by simpa [packH] using h.2⟩

/-- Two sufficient fuels compute the same hex digits. -/
lemma hexDigitsGo_congr : ∀ (f1 f2 n : Nat) (acc : List Nat),
    0 < f1 → 0 < f2 → n < 16 ^ f1 → n < 16 ^ f2 →
    hexDigitsGo f1 n acc = hexDigitsGo f2 n acc := by
  intro f1
  induction f1 with
  | zero => intro f2 n acc h0; omega
  | succ k ih =>
    intro f2 n acc hp1 hp2 hn1 hn2
    cases f2 with
    | zero => omega
    | succ j =>
      by_cases hs : n < 16
      · simp only [hexDigitsGo]
        simp [hs]
      · have hk : 1 ≤ k := by
          by_contra hk0
          have hke : k = 0 := by omega
          subst hke
          simp at hn1
          omega
        have hj : 1 ≤ j := by
          by_contra hj0
          have hje : j = 0 := by omega
          subst hje
          simp at hn2
          omega
        simp only [hexDigitsGo]
        rw [if_neg hs, if_neg hs]
        apply ih j (n / 16) _ (by omega) (by omega)
        · rw [Nat.div_lt_iff_lt_mul (by norm_num)]
          rw [← pow_succ]
          exact hn1
        · rw [Nat.div_lt_iff_lt_mul (by norm_num)]
          rw [← pow_succ]
          exact hn2

/-- The hex digit list of a four-digit value, digit by digit. -/
lemma hexDigitsGo_four (n : Nat) (h1 : 4096 ≤ n) (h2 : n < 65536) (acc : List Nat) :
    hexDigitsGo 4 n acc
      = hexChar (n / 4096) :: hexChar (n / 256 % 16) :: hexChar (n / 16 % 16) ::
        hexChar (n % 16) :: acc := by
  have ha : ¬ n < 16 := by omega
  have hb : ¬ n / 16 < 16 := by omega
  have hcc : ¬ n / 16 / 16 < 16 := by
    rw [Nat.div_div_eq_div_mul]
    omega
  have hd : n / 16 / 16 / 16 < 16 := by
    rw [Nat.div_div_eq_div_mul, Nat.div_div_eq_div_mul]
    omega
  have e1 : hexDigitsGo 4 n acc
      = hexDigitsGo 3 (n / 16) (hexChar (n % 16) :: acc) := by
    show hexDigitsGo (3 + 1) n acc = _
    simp only [hexDigitsGo]
    rw [if_neg ha]
  have e2 : hexDigitsGo 3 (n / 16) (hexChar (n % 16) :: acc)
      = hexDigitsGo 2 (n / 16 / 16) (hexChar (n / 16 % 16) :: hexChar (n % 16) :: acc) := by
    show hexDigitsGo (2 + 1) _ _ = _
    simp only [hexDigitsGo]
    rw [if_neg hb]
  have e3 : hexDigitsGo 2 (n / 16 / 16)
        (hexChar (n / 16 % 16) :: hexChar (n % 16) :: acc)
      = hexDigitsGo 1 (n / 16 / 16 / 16) (hexChar (n / 16 / 16 % 16) ::
          hexChar (n / 16 % 16) :: hexChar (n % 16) :: acc) := by
    show hexDigitsGo (1 + 1) _ _ = _
    simp only [hexDigitsGo]
    rw [if_neg hcc]
  have e4 : hexDigitsGo 1 (n / 16 / 16 / 16) (hexChar (n / 16 / 16 % 16) ::
        hexChar (n / 16 % 16) :: hexChar (n % 16) :: acc)
      = hexChar (n / 16 / 16 / 16) :: hexChar (n / 16 / 16 % 16) ::
          hexChar (n / 16 % 16) :: hexChar (n % 16) :: acc := by
    show hexDigitsGo (0 + 1) _ _ = _
    simp only [hexDigitsGo]
    rw [if_pos hd]
  rw [e1, e2, e3, e4, Nat.div_div_eq_div_mul, Nat.div_div_eq_div_mul,
    Nat.div_div_eq_div_mul]

/-- Python `hex` of a value with exactly four hex digits. -/
lemma pyHex_four (n : Nat) (h1 : 4096 ≤ n) (h2 : n < 65536) :
    pyHex n = [48, 120, hexChar (n / 4096), hexChar (n / 256 % 16),
      hexChar (n / 16 % 16), hexChar (n % 16)] := by
  have hself : n < 16 ^ (n + 1) := by
    calc n < 16 ^ n := Nat.lt_pow_self (by norm_num) n
      _ ≤ 16 ^ (n + 1) := Nat.pow_le_pow_right (by norm_num) (by omega)
  have hfour : n < 16 ^ 4 := lt_of_lt_of_eq h2 (by norm_num)
  rw [pyHex, hexDigitsGo_congr (n + 1) 4 n [] (by omega) (by omega) hself hfour,
    hexDigitsGo_four n h1 h2 []]

/-- Python `hex` of a value below `0x1000` has at most five characters. -/
lemma pyHex_len_small (n : Nat) (h : n < 4096) : (pyHex n).length ≤ 5 := by
  have hself : n < 16 ^ (n + 1) := by
    calc n < 16 ^ n := Nat.lt_pow_self (by norm_num) n
      _ ≤ 16 ^ (n + 1) := Nat.pow_le_pow_right (by norm_num) (by omega)
  have hthree : n < 16 ^ 3 := lt_of_lt_of_eq h (by norm_num)
  rw [pyHex, hexDigitsGo_congr (n + 1) 3 n [] (by omega) (by omega) hself hthree]
  by_cases c1 : n < 16
  · have e : hexDigitsGo 3 n [] = [hexChar n] := by
      show hexDigitsGo (2 + 1) n [] = _
      simp only [hexDigitsGo]
      rw [if_pos c1]
    simp [e]
  · have e1 : hexDigitsGo 3 n [] = hexDigitsGo 2 (n / 16) [hexChar (n % 16)] := by
      show hexDigitsGo (2 + 1) n [] = _
      simp only [hexDigitsGo]
      rw [if_neg c1]
    by_cases c2 : n / 16 < 16
    · have e2 : hexDigitsGo 2 (n / 16) [hexChar (n % 16)]
          = [hexChar (n / 16), hexChar (n % 16)] := by
        show hexDigitsGo (1 + 1) _ _ = _
        simp only [hexDigitsGo]
        rw [if_pos c2]
      simp [e1, e2]
    · have e2 : hexDigitsGo 2 (n / 16) [hexChar (n % 16)]
          = hexDigitsGo 1 (n / 16 / 16) [hexChar (n / 16 % 16), hexChar (n % 16)] := by
        show hexDigitsGo (1 + 1) _ _ = _
        simp only [hexDigitsGo]
        rw [if_neg c2]
      have c3 : n / 16 / 16 < 16 := by
        rw [Nat.div_div_eq_div_mul]
        omega
      have e3 : hexDigitsGo 1 (n / 16 / 16) [hexChar (n / 16 % 16), hexChar (n % 16)]
          = [hexChar (n / 16 / 16), hexChar (n / 16 % 16), hexChar (n % 16)] := by
        show hexDigitsGo (0 + 1) _ _ = _
        simp only [hexDigitsGo]
        rw [if_pos c3]
      simp [e1, e2, e3]

/-- Claim C10: header parsing is partial at the public interface.
`parseResponse` indexes characters 3 and 5 of `hex(flags)`, so for every
response of at least 12 bytes whose flags value is below `0x1000 = 4096`
(fewer than four hex digits — e.g. flags 0, as in a query header) it raises
an `IndexError` (modelled `none`), and it returns a triple exactly when the
flags value has four hex digits (is at least 4096; two bytes bound it below
65536). -/
theorem claim_C10_theorem (r : List Nat) (hlen : 12 ≤ r.length)
    (hbytes : ∀ b ∈ r, b < 256) :
    (r.getD 2 0 * 256 + r.getD 3 0 < 4096 → parseResponse r = none) ∧
    (4096 ≤ r.getD 2 0 * 256 + r.getD 3 0 →
      ∃ auth soa, parseResponse r = some (auth, soa, r.getD 8 0 * 256 + r.getD 9 0)) := by
  have hb2 : r.getD 2 0 < 256 := by
    have h2 : (2 : Nat) < r.length := by omega
    rw [List.getD_eq_getElem?_getD, List.getElem?_eq_getElem h2]
    exact hbytes _ (List.getElem_mem h2)
  have hb3 : r.getD 3 0 < 256 := by
    have h3 : (3 : Nat) < r.length := by omega
    rw [List.getD_eq_getElem?_getD, List.getElem?_eq_getElem h3]
    exact hbytes _ (List.getElem_mem h3)
  have hflags : r.getD 2 0 * 256 + r.getD 3 0 < 65536 := by omega
  constructor
  · intro hsmall
    have hlen5 := pyHex_len_small _ hsmall
    have hnone : (pyHex (r.getD 2 0 * 256 + r.getD 3 0))[5]? = none :=
      List.getElem?_eq_none (by omega)
    simp only [parseResponse]
    rw [if_neg (by omega)]
    rcases h3 : (pyHex (r.getD 2 0 * 256 + r.getD 3 0))[3]? with _ | a <;>
      rw [hnone]
  · intro hbig
    simp only [parseResponse]
    rw [if_neg (by omega), pyHex_four _ hbig hflags]
    exact ⟨_, _, rfl⟩

/-- Witness for claim C10 on the referral response `refMsg` (flags
`0x8000`, four hex digits): a triple is returned. -/
theorem claim_C10_witness :
    ∃ auth soa, parseResponse refMsg
      = some (auth, soa, refMsg.getD 8 0 * 256 + refMsg.getD 9 0) :=
  (claim_C10_theorem refMsg (by decide) (by decide)).2 (by decide)

end Resolver
